import Mathlib

/-!
Verification of the Auto-Quotation frontend core against its specification.

The definitions below are a shallow embedding of the TypeScript source:
  - `findMachineByCode`, `getMachinesByCategory`, `searchMachines` from the
    machine-lookup utility module,
  - the quotation pricing computation and line-item handlers from
    `AdminPanel.tsx` (`lineItemDetails`, `grandSubtotal`, `discountAmount`,
    `grandTotal`, `handleMachineSelect`, `adjustQuantity`,
    `updateQuantityInput`, `handleDeleteMachine`),
  - the price-list import review flow from `PriceListImport.tsx`
    (`handleFileUpload` product initialisation and `handleConfirm`).

JavaScript numbers are modelled as exact rationals (`Rat`); quantities, which
stay integral in the source, as `Int`.  A possibly-NaN number (the result of
`parseInt` on free text) is modelled as `Option Int`, `none` standing for NaN.
-/

/-- JavaScript string `toLowerCase`, character by character. -/
def strToLower (s : String) : String :=
  ⟨s.data.map Char.toLower⟩

/-- Boolean test that `p` is an initial segment of `l`. -/
def charsStartWith : List Char → List Char → Bool
  | [], _ => true
  | _ :: _, [] => false
  | c :: cs, d :: ds => c == d && charsStartWith cs ds

/-- Boolean test that `needle` occurs contiguously inside `hay`. -/
def charsInclude (needle : List Char) : List Char → Bool
  | [] => needle.isEmpty
  | c :: rest => charsStartWith needle (c :: rest) || charsInclude needle rest

/-- JavaScript `hay.includes(needle)` for strings. -/
def strIncludes (hay needle : String) : Bool :=
  charsInclude needle.data hay.data

/-- A catalog machine as delivered by the admin API
(`MachineFromAPI` in `AdminPanel.tsx`). -/
structure Machine where
  id : Int
  code : String
  name : String
  price : Rat
  category : String
  description : String
  active : Bool
  deriving Repr, DecidableEq

/-- `findMachineByCode` from the machine-lookup module:
`machines.find(m => m.code === code) || null`. -/
def findMachineByCode (code : String) (machines : List Machine) : Option Machine :=
  machines.find? (fun machine => machine.code == code)

/-- `getMachinesByCategory` from the machine-lookup module. -/
def getMachinesByCategory (categoryName : String) (machines : List Machine) : List Machine :=
  machines.filter (fun machine => machine.category == categoryName)

/-- The filter predicate inside `searchMachines`: the lower-cased term occurs
in the lower-cased name, category or code. -/
def machineMatches (term : String) (machine : Machine) : Bool :=
  strIncludes (strToLower machine.name) term ||
  strIncludes (strToLower machine.category) term ||
  strIncludes (strToLower machine.code) term

/-- `searchMachines` from the machine-lookup module. -/
def searchMachines (searchTerm : String) (machines : List Machine) : List Machine :=
  let term := strToLower searchTerm
  machines.filter (fun machine => machineMatches term machine)

/-- A quotation line item (`LineItem` in `AdminPanel.tsx`). -/
structure LineItem where
  id : String
  machineCode : String
  quantity : Int
  deriving Repr, DecidableEq

/-- One entry of `lineItemDetails`: the line item spread together with the
resolved machine, unit price and subtotal. -/
structure LineDetail where
  id : String
  machineCode : String
  quantity : Int
  machine : Option Machine
  unitPrice : Rat
  subtotal : Rat
  deriving Repr, DecidableEq

/-- The body of the map inside `lineItemDetails`:
`machine = findMachineByCode(item.machineCode, machines)`,
`unitPrice = machine?.price ?? 0`, `subtotal = unitPrice * item.quantity`. -/
def lineDetailOf (machines : List Machine) (item : LineItem) : LineDetail :=
  let machine := findMachineByCode item.machineCode machines
  let unitPrice := match machine with
    | some m => m.price
    | none => 0
  { id := item.id
    machineCode := item.machineCode
    quantity := item.quantity
    machine := machine
    unitPrice := unitPrice
    subtotal := unitPrice * (item.quantity : Rat) }

/-- The `lineItemDetails` computed value of the quotation form. -/
def lineItemDetails (machines : List Machine) (items : List LineItem) : List LineDetail :=
  items.map (lineDetailOf machines)

/-- `grandSubtotal = lineItemDetails.reduce((sum, i) => sum + i.subtotal, 0)`. -/
def grandSubtotalOf (details : List LineDetail) : Rat :=
  details.foldl (fun sum i => sum + i.subtotal) 0

/-- The full pricing result of the quotation form. -/
structure PricingResult where
  lines : List LineDetail
  grandSubtotal : Rat
  discountAmount : Rat
  grandTotal : Rat
  deriving Repr, DecidableEq

/-- The pricing computation of `AdminPanel.tsx`:
`discountAmount = (grandSubtotal * form.discountPercent) / 100`,
`grandTotal = grandSubtotal - discountAmount`. -/
def priceQuotation (machines : List Machine) (items : List LineItem)
    (discountPercent : Rat) : PricingResult :=
  let lines := lineItemDetails machines items
  let grandSubtotal := grandSubtotalOf lines
  let discountAmount := grandSubtotal * discountPercent / 100
  { lines := lines
    grandSubtotal := grandSubtotal
    discountAmount := discountAmount
    grandTotal := grandSubtotal - discountAmount }

/-- `handleMachineSelect` in `AdminPanel.tsx`: an already-listed machine code
gets its quantity incremented, otherwise a fresh line item with quantity 1 is
appended.  The generated id (`code-Date.now()`) is passed in as `newId`. -/
def handleMachineSelect (code : String) (newId : String)
    (prev : List LineItem) : List LineItem :=
  match prev.find? (fun item => item.machineCode == code) with
  | some _ =>
      prev.map (fun item =>
        if item.machineCode == code then
          { item with quantity := item.quantity + 1 }
        else item)
  | none => prev ++ [{ id := newId, machineCode := code, quantity := 1 }]

/-- `removeLineItem` in `AdminPanel.tsx`. -/
def removeLineItem (id : String) (prev : List LineItem) : List LineItem :=
  prev.filter (fun item => !(item.id == id))

/-- `adjustQuantity` in `AdminPanel.tsx`:
`quantity := Math.max(1, item.quantity + delta)` on the matching id. -/
def adjustQuantity (id : String) (delta : Int) (prev : List LineItem) : List LineItem :=
  prev.map (fun item =>
    if item.id == id then
      { item with quantity := max 1 (item.quantity + delta) }
    else item)

/-- JavaScript `value || dflt` on a number that may be NaN (`none`): NaN and 0
are falsy, every other number is returned unchanged. -/
def jsNumOr (value : Option Int) (dflt : Int) : Int :=
  match value with
  | none => dflt
  | some v => if v == 0 then dflt else v

/-- `updateQuantityInput` in `AdminPanel.tsx`:
`quantity := Math.max(1, value || 1)` on the matching id; `value` is the
result of `parseInt` on the text field, possibly NaN (`none`). -/
def updateQuantityInput (id : String) (value : Option Int)
    (prev : List LineItem) : List LineItem :=
  prev.map (fun item =>
    if item.id == id then
      { item with quantity := max 1 (jsNumOr value 1) }
    else item)

/-- The success branch of `handleDeleteMachine` in `AdminPanel.tsx`:
`machines.map(m => m.id === machineId ? {...m, active: false} : m)`. -/
def deactivateMachine (machineId : Int) (machines : List Machine) : List Machine :=
  machines.map (fun m =>
    if m.id == machineId then { m with active := false } else m)

/-- A parsed optional add-on (`ParsedOptional` in `PriceListImport.tsx`). -/
structure ParsedOptional where
  name : String
  price : Option Rat
  deriving Repr, DecidableEq

/-- A parsed product as sent to the confirm endpoint: the persisted fields of
`ParsedProduct` in `PriceListImport.tsx`, without the transient UI fields. -/
structure ParsedProduct where
  code : String
  product_title : String
  model_name : String
  name : String
  category : String
  price : Option Rat
  price_currency : String
  specs : List String
  optionals : List ParsedOptional
  deriving Repr, DecidableEq

/-- A product in the review list: a `ParsedProduct` together with the
transient UI fields `_selected` and `_expanded`. -/
structure ReviewProduct where
  code : String
  product_title : String
  model_name : String
  name : String
  category : String
  price : Option Rat
  price_currency : String
  specs : List String
  optionals : List ParsedOptional
  uiSelected : Bool
  uiExpanded : Bool
  deriving Repr, DecidableEq

/-- The destructuring `({_selected, _expanded, ...p}) => p` in
`handleConfirm`: drop the two UI fields, keep everything else. -/
def stripUiFields (p : ReviewProduct) : ParsedProduct :=
  { code := p.code
    product_title := p.product_title
    model_name := p.model_name
    name := p.name
    category := p.category
    price := p.price
    price_currency := p.price_currency
    specs := p.specs
    optionals := p.optionals }

/-- The product initialisation in `handleFileUpload`:
`data.products.map(p => ({...p, _selected: p.price !== null, _expanded: false}))`. -/
def initReviewProducts (products : List ParsedProduct) : List ReviewProduct :=
  products.map (fun p =>
    { code := p.code
      product_title := p.product_title
      model_name := p.model_name
      name := p.name
      category := p.category
      price := p.price
      price_currency := p.price_currency
      specs := p.specs
      optionals := p.optionals
      uiSelected := p.price.isSome
      uiExpanded := false })

/-- A parsed payment condition (`ParsedCondition` in `PriceListImport.tsx`). -/
structure ParsedCondition where
  name : String
  discount_percent : Rat
  description : String
  sort_order : Int
  deriving Repr, DecidableEq

/-- The step of the import wizard in `PriceListImport.tsx`. -/
inductive ImportStep
  | idle
  | loading
  | preview
  | confirming
  | done
  deriving Repr, DecidableEq

/-- The component state of `PriceListImport` that `handleConfirm` reads and
writes. -/
structure ImportState where
  step : ImportStep
  products : List ReviewProduct
  conditions : List ParsedCondition
  replaceExisting : Bool
  error : Option String
  deriving Repr, DecidableEq

/-- The JSON body `handleConfirm` posts to `/admin/price-list/confirm`. -/
structure ConfirmRequest where
  products : List ParsedProduct
  payment_conditions : List ParsedCondition
  replace_existing : Bool
  deriving Repr, DecidableEq

/-- The synchronous part of `handleConfirm` in `PriceListImport.tsx`: with no
selected product it only sets an error message and sends nothing; otherwise it
moves to the confirming step, clears the error and posts the selected
products, stripped of their UI fields, with the conditions and the
replace flag. -/
def handleConfirm (s : ImportState) : ImportState × Option ConfirmRequest :=
  if (s.products.filter (fun p => p.uiSelected)).length == 0 then
    ({ s with error := some "Seleccioná al menos un producto para importar" }, none)
  else
    ({ s with step := ImportStep.confirming, error := none },
      some { products := (s.products.filter (fun p => p.uiSelected)).map stripUiFields
             payment_conditions := s.conditions
             replace_existing := s.replaceExisting })

/-! ### Concrete example inputs -/

/-- The catalog of the end-to-end example in the specification:
`X1` costs 1000, `X2` costs 500. -/
def exampleCatalog : List Machine :=
  [{ id := 1, code := "X1", name := "Machine X1", price := 1000,
     category := "Tractors", description := "", active := true },
   { id := 2, code := "X2", name := "Machine X2", price := 500,
     category := "Tractors", description := "", active := true }]

/-- The line items of the end-to-end example: two of `X1`, one of `X2`. -/
def exampleItems : List LineItem :=
  [{ id := "X1-1", machineCode := "X1", quantity := 2 },
   { id := "X2-1", machineCode := "X2", quantity := 1 }]

/-! ### Helper lemmas about the pricing computation -/

lemma foldl_add_subtotal (l : List LineDetail) (init : Rat) :
    l.foldl (fun sum i => sum + i.subtotal) init
      = init + (l.map (fun i => i.subtotal)).sum := by
  induction l generalizing init with
  | nil => simp
  | cons a t ih => simp [ih]; ring

lemma grandSubtotalOf_eq_sum (l : List LineDetail) :
    grandSubtotalOf l = (l.map (fun i => i.subtotal)).sum := by
  simp [grandSubtotalOf, foldl_add_subtotal]

lemma lineDetailOf_subtotal (machines : List Machine) (item : LineItem) :
    (lineDetailOf machines item).subtotal
      = (lineDetailOf machines item).unitPrice
          * ((lineDetailOf machines item).quantity : Rat) := rfl

lemma lineDetailOf_unitPrice_nonneg (machines : List Machine)
    (hm : ∀ m ∈ machines, 0 ≤ m.price) (item : LineItem) :
    0 ≤ (lineDetailOf machines item).unitPrice := by
  simp only [lineDetailOf]
  cases hfind : findMachineByCode item.machineCode machines with
  | none => simp [hfind]
  | some m => simpa [hfind] using hm m (List.mem_of_find?_eq_some hfind)

lemma grandSubtotal_nonneg (machines : List Machine) (items : List LineItem)
    (hm : ∀ m ∈ machines, 0 ≤ m.price)
    (hq : ∀ it ∈ items, (1 : Int) ≤ it.quantity) :
    0 ≤ grandSubtotalOf (lineItemDetails machines items) := by
  rw [grandSubtotalOf_eq_sum]
  apply List.sum_nonneg
  intro x hx
  simp only [lineItemDetails, List.map_map, List.mem_map, Function.comp] at hx
  obtain ⟨item, hitem, rfl⟩ := hx
  have hqi : (0 : Rat) ≤ ((lineDetailOf machines item).quantity : Rat) := by
    have h1 : (1 : Int) ≤ item.quantity := hq item hitem
    have : (0 : Int) ≤ (lineDetailOf machines item).quantity := by
      simpa [lineDetailOf] using le_trans Int.one_nonneg h1
    exact_mod_cast this
  calc (0 : Rat) ≤ (lineDetailOf machines item).unitPrice
                    * ((lineDetailOf machines item).quantity : Rat) :=
        mul_nonneg (lineDetailOf_unitPrice_nonneg machines hm item) hqi
    _ = (lineDetailOf machines item).subtotal := (lineDetailOf_subtotal machines item).symm

/-! ### C1: pricing correctness -/

/-- C1.  For every catalog, line-item list and `discountPercent ∈ [0,100]`
(over states satisfying the data-model invariants: catalog prices are
nonnegative and quantities are at least 1), the pricing computation satisfies
`grandSubtotal = Σ unitPrice * quantity`,
`discountAmount = grandSubtotal * discountPercent / 100`,
`grandTotal = grandSubtotal - discountAmount`, and
`grandTotal ≤ grandSubtotal`. -/
theorem pricing_correctness (machines : List Machine) (items : List LineItem)
    (d : Rat) (hd0 : 0 ≤ d) (hd1 : d ≤ 100)
    (hm : ∀ m ∈ machines, 0 ≤ m.price)
    (hq : ∀ it ∈ items, (1 : Int) ≤ it.quantity) :
    (priceQuotation machines items d).grandSubtotal
        = ((priceQuotation machines items d).lines.map
            (fun l => l.unitPrice * (l.quantity : Rat))).sum ∧
    (priceQuotation machines items d).discountAmount
        = (priceQuotation machines items d).grandSubtotal * d / 100 ∧
    (priceQuotation machines items d).grandTotal
        = (priceQuotation machines items d).grandSubtotal
            - (priceQuotation machines items d).discountAmount ∧
    (priceQuotation machines items d).grandTotal
        ≤ (priceQuotation machines items d).grandSubtotal := by
  have hS : 0 ≤ grandSubtotalOf (lineItemDetails machines items) :=
    grandSubtotal_nonneg machines items hm hq
  refine ⟨?_, rfl, rfl, ?_⟩
  · simp only [priceQuotation, grandSubtotalOf_eq_sum]
    congr 1
    apply List.map_congr_left
    intro l hl
    simp only [lineItemDetails, List.mem_map] at hl
    obtain ⟨item, _, rfl⟩ := hl
    exact lineDetailOf_subtotal machines item
  · simp only [priceQuotation]
    have hdisc : 0 ≤ grandSubtotalOf (lineItemDetails machines items) * d / 100 := by
      have := mul_nonneg hS hd0
      positivity
    exact sub_le_self _ hdisc

/-- Witness for C1 at the end-to-end example input. -/
theorem pricing_correctness_witness :
    ((0 : Rat) ≤ 10 ∧ (10 : Rat) ≤ 100 ∧
      (∀ m ∈ exampleCatalog, 0 ≤ m.price) ∧
      (∀ it ∈ exampleItems, (1 : Int) ≤ it.quantity)) ∧
    (priceQuotation exampleCatalog exampleItems 10).grandTotal
      ≤ (priceQuotation exampleCatalog exampleItems 10).grandSubtotal :=
  ⟨⟨by norm_num, by norm_num, by decide, by decide⟩,
    (pricing_correctness exampleCatalog exampleItems 10 (by norm_num) (by norm_num)
      (by decide) (by decide)).2.2.2⟩

/-! ### C3: end-to-end example -/

/-- C3.  On line items `[X1 x2, X2 x1]` with catalog prices `X1 = 1000`,
`X2 = 500` and `discountPercent = 10`, the pricing computation returns
`grandSubtotal = 2500`, `discountAmount = 250`, `grandTotal = 2250`. -/
theorem end_to_end_example :
    (priceQuotation exampleCatalog exampleItems 10).grandSubtotal = 2500 ∧
    (priceQuotation exampleCatalog exampleItems 10).discountAmount = 250 ∧
    (priceQuotation exampleCatalog exampleItems 10).grandTotal = 2250 := by
  have h12 : ("X1" == "X2") = false := by decide
  norm_num [priceQuotation, grandSubtotalOf, lineItemDetails, lineDetailOf,
    findMachineByCode, exampleCatalog, exampleItems, List.find?, h12]

/-! ### C2: discount clamping -/

/-- Counterexample to C2 as stated: on the example input the pricing
computation at `discountPercent = 150` does not agree with
`discountPercent = 100` (3750 vs 2500), nor `-10` with `0` (-250 vs 0):
no clamping happens anywhere in the computation. -/
theorem discount_clamping_counterexample :
    (priceQuotation exampleCatalog exampleItems 150).discountAmount
        ≠ (priceQuotation exampleCatalog exampleItems 100).discountAmount ∧
    (priceQuotation exampleCatalog exampleItems (-10)).discountAmount
        ≠ (priceQuotation exampleCatalog exampleItems 0).discountAmount := by
  have h12 : ("X1" == "X2") = false := by decide
  norm_num [priceQuotation, grandSubtotalOf, lineItemDetails, lineDetailOf,
    findMachineByCode, exampleCatalog, exampleItems, List.find?, h12]

/-- C2 amended.  The pricing computation applies `discountPercent` without any
clamping: the results at `discountPercent = 150` and `discountPercent = 100`
(resp. `-10` and `0`) coincide exactly when `grandSubtotal = 0`; on any
nonzero subtotal an out-of-range percentage gives a different (out-of-range)
discount. -/
theorem discount_not_clamped (machines : List Machine) (items : List LineItem) :
    (priceQuotation machines items 150 = priceQuotation machines items 100
        ↔ (priceQuotation machines items 150).grandSubtotal = 0) ∧
    (priceQuotation machines items (-10) = priceQuotation machines items 0
        ↔ (priceQuotation machines items (-10)).grandSubtotal = 0) := by
  constructor
  · constructor
    · intro h
      have hd := congrArg PricingResult.discountAmount h
      simp only [priceQuotation] at hd ⊢
      linarith
    · intro h
      have hS : grandSubtotalOf (lineItemDetails machines items) = 0 := by
        simpa [priceQuotation] using h
      simp [priceQuotation, hS]
  · constructor
    · intro h
      have hd := congrArg PricingResult.discountAmount h
      simp only [priceQuotation] at hd ⊢
      linarith
    · intro h
      have hS : grandSubtotalOf (lineItemDetails machines items) = 0 := by
        simpa [priceQuotation] using h
      simp [priceQuotation, hS]

/-! ### C4: quantity floor on every line-item mutation -/

/-- C4.  Every line-item mutation keeps every quantity at least 1: selecting a
machine either appends a fresh item with quantity 1 or increments each item
carrying that code by 1; `adjustQuantity` sets `max 1 (quantity + delta)`;
`updateQuantityInput` clamps any requested value (0, negative or NaN) to at
least 1, and a requested 0, negative or NaN value yields exactly 1. -/
theorem lineitem_quantity_floor (prev : List LineItem) (code newId id : String)
    (delta : Int) (value : Option Int)
    (hinv : ∀ it ∈ prev, 1 ≤ it.quantity) :
    (∀ it ∈ handleMachineSelect code newId prev, 1 ≤ it.quantity) ∧
    (∀ it ∈ adjustQuantity id delta prev, 1 ≤ it.quantity) ∧
    (∀ it ∈ updateQuantityInput id value prev, 1 ≤ it.quantity) ∧
    (prev.find? (fun it => it.machineCode == code) = none →
      handleMachineSelect code newId prev
        = prev ++ [{ id := newId, machineCode := code, quantity := 1 }]) ∧
    ((∃ e ∈ prev, e.machineCode = code) →
      handleMachineSelect code newId prev
        = prev.map (fun it => if it.machineCode = code
            then { it with quantity := it.quantity + 1 } else it)) ∧
    (adjustQuantity id delta prev
        = prev.map (fun it => if it.id = id
            then { it with quantity := max 1 (it.quantity + delta) } else it)) ∧
    ((value = none ∨ ∃ v, v ≤ 0 ∧ value = some v) →
      updateQuantityInput id value prev
        = prev.map (fun it => if it.id = id
            then { it with quantity := 1 } else it)) := by
  refine ⟨?_, ?_, ?_, ?_, ?_, ?_, ?_⟩
  · intro it hit
    unfold handleMachineSelect at hit
    cases hfind : prev.find? (fun item => item.machineCode == code) with
    | some e =>
        rw [hfind] at hit
        obtain ⟨x, hx, rfl⟩ := List.mem_map.mp hit
        by_cases hc : (x.machineCode == code) = true
        · have := hinv x hx
          simp only [hc, if_true]
          omega
        · simp only [hc]
          simpa using hinv x hx
    | none =>
        rw [hfind] at hit
        rcases List.mem_append.mp hit with hl | hr
        · exact hinv it hl
        · simp only [List.mem_singleton] at hr
          subst hr
          exact le_refl 1
  · intro it hit
    obtain ⟨x, hx, rfl⟩ := List.mem_map.mp hit
    by_cases hc : (x.id == id) = true
    · simp only [hc, if_true]
      exact le_max_left 1 _
    · simp only [hc]
      simpa using hinv x hx
  · intro it hit
    obtain ⟨x, hx, rfl⟩ := List.mem_map.mp hit
    by_cases hc : (x.id == id) = true
    · simp only [hc, if_true]
      exact le_max_left 1 _
    · simp only [hc]
      simpa using hinv x hx
  · intro hfind
    unfold handleMachineSelect
    rw [hfind]
  · rintro ⟨e, he, hcode⟩
    have hsome : (prev.find? (fun it => it.machineCode == code)).isSome := by
      rw [List.find?_isSome]
      exact ⟨e, he, by simp [hcode]⟩
    unfold handleMachineSelect
    cases hfind : prev.find? (fun it => it.machineCode == code) with
    | none => rw [hfind] at hsome; simp at hsome
    | some w =>
        apply List.map_congr_left
        intro it _
        by_cases hc : it.machineCode = code
        · simp [hc]
        · simp [hc]
  · unfold adjustQuantity
    apply List.map_congr_left
    intro it _
    by_cases hc : it.id = id
    · simp [hc]
    · simp [hc]
  · intro hval
    unfold updateQuantityInput
    apply List.map_congr_left
    intro it _
    by_cases hc : it.id = id
    · have hq1 : max 1 (jsNumOr value 1) = 1 := by
        rcases hval with rfl | ⟨v, hv, rfl⟩
        · simp [jsNumOr]
        · by_cases hv0 : v = 0
          · simp [jsNumOr, hv0]
          · have : jsNumOr (some v) 1 = v := by simp [jsNumOr, hv0]
            rw [this]
            omega
      simp [hc, hq1]
    · simp [hc]

/-- Witness for C4: on the example line items, updating the quantity of the
first item to -5 keeps every quantity at least 1. -/
theorem lineitem_quantity_floor_witness :
    (∀ it ∈ exampleItems, 1 ≤ it.quantity) ∧
    (∀ it ∈ updateQuantityInput "X1-1" (some (-5)) exampleItems, 1 ≤ it.quantity) :=
  ⟨by decide,
    (lineitem_quantity_floor exampleItems "X3" "X3-9" "X1-1" (-1) (some (-5))
      (by decide)).2.2.1⟩

/-! ### C5: unknown machine codes price to zero, totally -/

/-- C5.  For a line item whose code matches no catalog machine (case-sensitive
exact comparison), the lookup returns `none` and the computed line detail —
a total function, so the computation never throws — carries `unitPrice = 0`
and `subtotal = 0`. -/
theorem unknown_code_zero (machines : List Machine) (item : LineItem)
    (h : ∀ m ∈ machines, m.code ≠ item.machineCode) :
    findMachineByCode item.machineCode machines = none ∧
    (lineDetailOf machines item).unitPrice = 0 ∧
    (lineDetailOf machines item).subtotal = 0 := by
  have hfind : findMachineByCode item.machineCode machines = none := by
    rw [findMachineByCode, List.find?_eq_none]
    intro m hm
    simpa using h m hm
  refine ⟨hfind, ?_, ?_⟩ <;> simp [lineDetailOf, hfind]

/-- Witness for C5: the code `Z9` is not in the example catalog and its line
subtotal is 0. -/
theorem unknown_code_zero_witness :
    (∀ m ∈ exampleCatalog, m.code ≠ "Z9") ∧
    (lineDetailOf exampleCatalog
      { id := "z", machineCode := "Z9", quantity := 3 }).subtotal = 0 :=
  ⟨by decide,
    (unknown_code_zero exampleCatalog
      { id := "z", machineCode := "Z9", quantity := 3 } (by decide)).2.2⟩

/-! ### C7: deactivating a machine is a pure frame update -/

/-- C7.  The state update of a successful `handleDeleteMachine` never removes
a machine: the list keeps its length and order, the entry whose id matches has
`active := false` and every other field unchanged, and entries with a
different id are completely unchanged. -/
theorem deactivate_machine_frame (machines : List Machine) (machineId : Int)
    (i : Nat) (h1 : i < machines.length)
    (h2 : i < (deactivateMachine machineId machines).length) :
    (deactivateMachine machineId machines).length = machines.length ∧
    (machines[i].id = machineId →
      (deactivateMachine machineId machines)[i]
        = { machines[i] with active := false }) ∧
    (machines[i].id ≠ machineId →
      (deactivateMachine machineId machines)[i] = machines[i]) := by
  refine ⟨by simp [deactivateMachine], ?_, ?_⟩
  · intro hid
    simp [deactivateMachine, hid]
  · intro hid
    simp [deactivateMachine, hid]

/-- Witness for C7 at the example catalog, deactivating id 1 at index 0. -/
theorem deactivate_machine_frame_witness :
    (0 < exampleCatalog.length ∧ 0 < (deactivateMachine 1 exampleCatalog).length) ∧
    (deactivateMachine 1 exampleCatalog).length = exampleCatalog.length :=
  ⟨⟨by decide, by decide⟩,
    (deactivate_machine_frame exampleCatalog 1 0 (by decide) (by decide)).1⟩

/-! ### C6, C8, C9: price-list import review flow -/

/-- A concrete review product with a price, selected for import. -/
def exampleReviewProduct : ReviewProduct :=
  { code := "X1", product_title := "Tractor X1", model_name := "X1-2024",
    name := "Machine X1", category := "Tractors", price := some 1000,
    price_currency := "USD", specs := ["120hp"],
    optionals := [{ name := "Cabin", price := some 50 }],
    uiSelected := true, uiExpanded := false }

/-- A concrete import state in the preview step with one selected product. -/
def exampleImportState : ImportState :=
  { step := ImportStep.preview, products := [exampleReviewProduct],
    conditions := [{ name := "Contado", discount_percent := 0,
                     description := "", sort_order := 1 }],
    replaceExisting := true, error := none }

/-- A concrete import state whose only product is not selected. -/
def exampleEmptySelState : ImportState :=
  { step := ImportStep.preview,
    products := [{ exampleReviewProduct with uiSelected := false }],
    conditions := [], replaceExisting := false, error := none }

/-- C6.  Whenever `handleConfirm` emits a request, that request carries
exactly the selected products, in their input order (the sent list is the
stripped filter of the review list and a sublist of the stripped review
list), with the conditions and replace flag passed through; stripping removes
only the two transient UI fields and leaves every persisted field unchanged. -/
theorem confirm_sends_selected (s : ImportState) (s2 : ImportState)
    (r : ConfirmRequest) (h : handleConfirm s = (s2, some r)) :
    r.products = (s.products.filter (fun p => p.uiSelected)).map stripUiFields ∧
    (∀ q, q ∈ r.products
        ↔ ∃ p, p ∈ s.products ∧ p.uiSelected = true ∧ stripUiFields p = q) ∧
    List.Sublist r.products (s.products.map stripUiFields) ∧
    r.payment_conditions = s.conditions ∧
    r.replace_existing = s.replaceExisting ∧
    (∀ p : ReviewProduct, (stripUiFields p).code = p.code
      ∧ (stripUiFields p).product_title = p.product_title
      ∧ (stripUiFields p).model_name = p.model_name
      ∧ (stripUiFields p).name = p.name
      ∧ (stripUiFields p).category = p.category
      ∧ (stripUiFields p).price = p.price
      ∧ (stripUiFields p).price_currency = p.price_currency
      ∧ (stripUiFields p).specs = p.specs
      ∧ (stripUiFields p).optionals = p.optionals) := by
  have hr : r = { products := (s.products.filter (fun p => p.uiSelected)).map stripUiFields,
                  payment_conditions := s.conditions,
                  replace_existing := s.replaceExisting } := by
    unfold handleConfirm at h
    split at h
    · exact absurd (congrArg Prod.snd h) (by simp)
    · have := congrArg Prod.snd h
      simp only [Option.some.injEq] at this
      exact this.symm
  subst hr
  refine ⟨rfl, ?_, ?_, rfl, rfl, fun p => ⟨rfl, rfl, rfl, rfl, rfl, rfl, rfl, rfl, rfl⟩⟩
  · intro q
    simp only [List.mem_map, List.mem_filter]
    constructor
    · rintro ⟨p, ⟨hp, hsel⟩, rfl⟩
      exact ⟨p, hp, hsel, rfl⟩
    · rintro ⟨p, hp, hsel, rfl⟩
      exact ⟨p, ⟨hp, hsel⟩, rfl⟩
  · exact (List.filter_sublist _).map stripUiFields

/-- Witness for C6 at the example import state. -/
theorem confirm_sends_selected_witness :
    List.Sublist
      ((exampleImportState.products.filter (fun p => p.uiSelected)).map stripUiFields)
      (exampleImportState.products.map stripUiFields) :=
  (confirm_sends_selected exampleImportState
    { exampleImportState with step := ImportStep.confirming, error := none }
    { products := (exampleImportState.products.filter (fun p => p.uiSelected)).map stripUiFields,
      payment_conditions := exampleImportState.conditions,
      replace_existing := exampleImportState.replaceExisting }
    rfl).2.2.1

/-- C8.  After a successful preview load every parsed product appears in the
review list (same length, same persisted fields at every index) and is
initially selected exactly when its parsed price is non-null, with the
expansion flag off. -/
theorem preview_initial_selection (products : List ParsedProduct) (i : Nat)
    (h1 : i < products.length)
    (h2 : i < (initReviewProducts products).length) :
    (initReviewProducts products).length = products.length ∧
    stripUiFields ((initReviewProducts products)[i]) = products[i] ∧
    ((initReviewProducts products)[i]).uiSelected = (products[i]).price.isSome ∧
    ((initReviewProducts products)[i]).uiExpanded = false := by
  refine ⟨by simp [initReviewProducts], ?_, ?_, ?_⟩ <;>
    simp [initReviewProducts, stripUiFields]

/-- A concrete parsed-product list: one priced product, one with null price. -/
def exampleParsedProducts : List ParsedProduct :=
  [{ code := "X1", product_title := "Tractor X1", model_name := "X1-2024",
     name := "Machine X1", category := "Tractors", price := some 1000,
     price_currency := "USD", specs := [], optionals := [] },
   { code := "P2", product_title := "Plow P2", model_name := "P2",
     name := "Plow P2", category := "Implements", price := none,
     price_currency := "USD", specs := [], optionals := [] }]

/-- Witness for C8 at a two-product preview, index 1 (the unpriced product). -/
theorem preview_initial_selection_witness :
    (1 < exampleParsedProducts.length ∧
      1 < (initReviewProducts exampleParsedProducts).length) ∧
    (initReviewProducts exampleParsedProducts).length = exampleParsedProducts.length :=
  ⟨⟨by decide, by decide⟩,
    (preview_initial_selection exampleParsedProducts 1 (by decide) (by decide)).1⟩

/-- C9.  When no product is selected, `handleConfirm` sends no request and
changes nothing except setting the error message: products, conditions,
replace flag and step are untouched, so a confirm in the preview step stays
in the preview step. -/
theorem confirm_empty_selection_noop (s : ImportState)
    (hsel : ∀ p ∈ s.products, p.uiSelected = false) :
    (handleConfirm s).2 = none ∧
    (handleConfirm s).1.step = s.step ∧
    (handleConfirm s).1.products = s.products ∧
    (handleConfirm s).1.conditions = s.conditions ∧
    (handleConfirm s).1.replaceExisting = s.replaceExisting ∧
    (handleConfirm s).1.error
      = some "Seleccioná al menos un producto para importar" := by
  have hfilter : s.products.filter (fun p => p.uiSelected) = [] := by
    rw [List.filter_eq_nil_iff]
    intro p hp
    simp [hsel p hp]
  simp [handleConfirm, hfilter]

/-- Witness for C9 at the example state with an unselected product. -/
theorem confirm_empty_selection_noop_witness :
    (∀ p ∈ exampleEmptySelState.products, p.uiSelected = false) ∧
    (handleConfirm exampleEmptySelState).2 = none :=
  ⟨by decide,
    (confirm_empty_selection_noop exampleEmptySelState (by decide)).1⟩

/-! ### C10: searchMachines -/

lemma charsInclude_nil (l : List Char) : charsInclude [] l = true := by
  cases l with
  | nil => rfl
  | cons c rest => simp [charsInclude, charsStartWith]

lemma strIncludes_empty_term (s : String) : strIncludes s "" = true := by
  have hdata : ("" : String).data = [] := rfl
  rw [strIncludes, hdata]
  exact charsInclude_nil s.data

/-- C10.  `searchMachines` returns exactly the machines whose name, category
or code contains the term case-insensitively (OR semantics): membership is
characterised by `machineMatches` on the lower-cased term, the input order is
preserved (the result is a sublist of the input), and the empty term returns
every machine. -/
theorem searchMachines_spec (searchTerm : String) (machines : List Machine) :
    (∀ m, m ∈ searchMachines searchTerm machines
        ↔ m ∈ machines ∧ machineMatches (strToLower searchTerm) m = true) ∧
    List.Sublist (searchMachines searchTerm machines) machines ∧
    searchMachines "" machines = machines := by
  refine ⟨?_, ?_, ?_⟩
  · intro m
    simp [searchMachines, List.mem_filter]
  · unfold searchMachines
    exact List.filter_sublist _
  · unfold searchMachines
    rw [List.filter_eq_self]
    intro m _
    have hterm : strToLower "" = "" := rfl
    rw [hterm, machineMatches]
    simp [strIncludes_empty_term]
